import Mathlib

/-
Verification development for the order-marketplace sync service
(Google Sheet feed -> persisted orders store).

The definitions below are a shallow embedding of the TypeScript source:
the budget parser, the timeline classifier, the djb2 row-identity hash,
the feed parsers (array variant and wrapped GViz variant), the sheet
reconciliation engine (insert / update / purge), and the dashboard
claim ("take order") and completion conditional updates.

Strings are modelled as Lean strings; JavaScript numbers appearing in
the budget parser are modelled exactly as decimal rationals (numerator
over a power of ten); machine 32-bit overflow in the hash is modelled
with explicit mod 2^32; wall-clock time is an abstract Nat parameter.
-/

/-! ## Budget parser (source: parseBudgetToNumber) -/

def isDigitChar (c : Char) : Bool :=
  decide ('0' ≤ c ∧ c ≤ '9')

/-- JavaScript regex whitespace class members relevant to the scanner. -/
def isSpaceChar (c : Char) : Bool :=
  c = ' ' || c = '\t' || c = '\n' || c = '\r' ||
  c = Char.ofNat 11 || c = Char.ofNat 12 || c = Char.ofNat 160 || c = Char.ofNat 65279

/-- A comma or whitespace: the digit-group separators accepted by the regex. -/
def isSepChar (c : Char) : Bool :=
  c = ',' || isSpaceChar c

def natDigit (c : Char) : Nat := c.toNat - '0'.toNat

def digitsToNat (ds : List Char) : Nat :=
  ds.foldl (fun n c => n * 10 + natDigit c) 0

/-- Take the maximal leading digit run. -/
def takeDigits : List Char → List Char × List Char
  | [] => ([], [])
  | c :: rest =>
    if isDigitChar c then
      let (ds, r) := takeDigits rest
      (c :: ds, r)
    else ([], c :: rest)

/-- One grouping step of the regex: a separator followed by two or three
digits (three taken greedily).  Returns the digits and the rest. -/
def takeOneGroup (l : List Char) : Option (List Char × List Char) :=
  match l with
  | [] => none
  | c :: rest =>
    if isSepChar c then
      let (ds, r) := takeDigits rest
      if ds.length ≥ 2 then
        some (ds.take 3, ds.drop 3 ++ r)
      else none
    else none

/-- Greedily take as many grouping steps as possible (fuel-bounded). -/
def takeGroupsAux : Nat → List Char → List Char → List Char × List Char
  | 0, l, acc => (acc, l)
  | fuel + 1, l, acc =>
    match takeOneGroup l with
    | some (ds, rest) => takeGroupsAux fuel rest (acc ++ ds)
    | none => (acc, l)

/-- Match the number part of the regex at the head of the list:
either a grouped number (1-3 digits then one or more separator groups)
or a plain number with an optional decimal part.  Returns the value as
a pair (numerator, number of fractional digits) and the rest.
Requires the head to be a digit. -/
def matchNumber (l : List Char) : Option ((Nat × Nat) × List Char) :=
  let (ds, r) := takeDigits l
  if ds.isEmpty then none
  else
    let tryGrouped : Option ((Nat × Nat) × List Char) :=
      if ds.length ≤ 3 then
        match takeOneGroup r with
        | some (g1, r1) =>
          let (gs, r2) := takeGroupsAux r1.length r1 []
          some ((digitsToNat (ds ++ g1 ++ gs), 0), r2)
        | none => none
      else none
    match tryGrouped with
    | some x => some x
    | none =>
      match r with
      | '.' :: r2 =>
        let (fs, r3) := takeDigits r2
        if fs.isEmpty then some ((digitsToNat ds, 0), '.' :: r2)
        else some ((digitsToNat (ds ++ fs), fs.length), r3)
      | _ => some ((digitsToNat ds, 0), r)

/-- Match the optional magnitude suffix, in the regex's ordered-alternation
semantics: k, m, l each match before their longer forms lac/lakh/lakhs, and
cr matches before crore, so only the short tokens are ever consumed.
Returns the multiplier and the rest. -/
def matchSuffix (l : List Char) : Nat × List Char :=
  match l with
  | 'k' :: r => (1000, r)
  | 'm' :: r => (1000000, r)
  | 'l' :: r => (100000, r)
  | 'c' :: 'r' :: r => (10000000, r)
  | _ => (1, l)

/-- Math.round of (n / 10^d) * mult, on non-negative exact decimals:
floor(x + 1/2). -/
def roundScaled (n d mult : Nat) : Nat :=
  (2 * n * mult + 10 ^ d) / (2 * 10 ^ d)

/-- The left-to-right regex scan: at each digit, match a number with its
optional suffix and emit the rounded scaled value, then continue after the
match; otherwise advance one character. -/
def scanBudget : Nat → List Char → List Nat
  | 0, _ => []
  | _ + 1, [] => []
  | fuel + 1, c :: rest =>
    if isDigitChar c then
      match matchNumber (c :: rest) with
      | some ((n, d), r1) =>
        let r2 := r1.dropWhile isSpaceChar
        let (mult, r3) := matchSuffix r2
        roundScaled n d mult :: scanBudget fuel r3
      | none => scanBudget fuel rest
    else scanBudget fuel rest

/-- Dash variants are normalized to an ASCII hyphen. -/
def fixDash (c : Char) : Char :=
  if c = '–' || c = '—' || c = '−' then '-' else c

/-- ASCII lower-casing, as JavaScript toLowerCase acts on the inputs in play. -/
def lowerChar (c : Char) : Char :=
  if 'A' ≤ c ∧ c ≤ 'Z' then Char.ofNat (c.toNat + 32) else c

/-- Strip leading and trailing whitespace from a character list. -/
def trimList (l : List Char) : List Char :=
  ((l.dropWhile isSpaceChar).reverse.dropWhile isSpaceChar).reverse

/-- Lower-case, trim, then normalize dashes, as the source does. -/
def normalizeBudget (l : List Char) : List Char :=
  (trimList (l.map lowerChar)).map fixDash

def budgetMatches (l : List Char) : List Nat :=
  scanBudget l.length l

/-- Source: parseBudgetToNumber.  Null/empty input yields 0; otherwise the
maximum of all rounded scaled matches of the scan, or 0 if none. -/
def parseBudgetToNumber (budget : Option String) : Nat :=
  match budget with
  | none => 0
  | some s =>
    if s = "" then 0
    else
      match budgetMatches (normalizeBudget s.toList) with
      | [] => 0
      | v :: vs => vs.foldl Nat.max v


/-! ## Substring search (JavaScript String.includes / indexOf) -/

def startsWithL : List Char → List Char → Bool
  | [], _ => true
  | _ :: _, [] => false
  | p :: ps, c :: cs => p = c && startsWithL ps cs

/-- Index of the first occurrence of pat in l, if any (JS indexOf). -/
def indexOfSub (l pat : List Char) : Option Nat :=
  if startsWithL pat l then some 0
  else
    match l with
    | [] => none
    | _ :: rest => (indexOfSub rest pat).map (· + 1)

/-- JS String.includes, as used by the timeline classifier. -/
def strContains (s pat : String) : Bool :=
  (indexOfSub s.toList pat.toList).isSome

/-! ## Timeline classifier (source: mapTimelineToDueDate, addDays) -/

/-- Source: addDays — days offset from the wall clock, modelled with an
abstract day-valued now. -/
def addDays (now days : Nat) : Nat := now + days

/-- ASCII lower-casing of a whole string, as the source's toLowerCase. -/
def jsLower (s : String) : String :=
  String.mk (s.toList.map lowerChar)

/-- Source: mapTimelineToDueDate.  Case-insensitive substring rules,
evaluated top to bottom, first match wins; null/empty input yields null. -/
def mapTimelineToDueDate (now : Nat) (timeline : Option String) : Option Nat :=
  match timeline with
  | none => none
  | some s =>
    if s = "" then none
    else
      if strContains (jsLower s) "urgent" || strContains (jsLower s) "1-3" then
        some (addDays now 3)
      else if strContains (jsLower s) "week" || strContains (jsLower s) "3-7" then
        some (addDays now 7)
      else if strContains (jsLower s) "month" || strContains (jsLower s) "1-4" then
        some (addDays now 28)
      else none


/-! ## Row identity (source: djb2Hash, sheet_row_id fallback) -/

/-- UTF-16 code units of a character, as JS charCodeAt enumerates them. -/
def utf16Units (c : Char) : List Nat :=
  if c.toNat < 65536 then [c.toNat]
  else [55296 + (c.toNat - 65536) / 1024, 56320 + (c.toNat - 65536) % 1024]

def utf16Codes (s : String) : List Nat :=
  (s.toList.map utf16Units).flatten

/-- Source: djb2Hash loop.  hash = ((hash << 5) + hash) + code with 32-bit
wraparound (hash |= 0), which is hash * 33 + code modulo 2^32. -/
def djb2Hash (s : String) : Nat :=
  (utf16Codes s).foldl (fun h c => (h * 33 + c) % 4294967296) 5381

def base36Char (n : Nat) : Char :=
  if n < 10 then Char.ofNat ('0'.toNat + n) else Char.ofNat ('a'.toNat + (n - 10))

def toBase36Aux : Nat → Nat → List Char
  | 0, _ => []
  | fuel + 1, n =>
    if n < 36 then [base36Char n]
    else toBase36Aux fuel (n / 36) ++ [base36Char (n % 36)]

/-- JS Number.prototype.toString with radix 36, for non-negative integers. -/
def toBase36 (n : Nat) : String :=
  String.mk (toBase36Aux (n + 1) n)

/-- Source: the fingerprint template string joining the five extracted
fields with a separator bar. -/
def fingerprint (name service desc budget timeline : String) : String :=
  name ++ "|" ++ service ++ "|" ++ desc ++ "|" ++ budget ++ "|" ++ timeline

/-- Source: sheet_row_id = timestamp || djb2Hash(fingerprint): a non-empty
timestamp is used verbatim, otherwise the base-36 encoded hash. -/
def sheetRowId (name service desc budget timeline timestamp : String) : String :=
  if timestamp = "" then toBase36 (djb2Hash (fingerprint name service desc budget timeline))
  else timestamp


/-! ## Feed rows and field normalization -/

/-- Array-variant raw row: a JSON object keyed by header names, with the
cell values already string-converted as the source's String(...) does. -/
abbrev RawRow := List (String × String)

/-- Wrapped-variant cell: a raw value and an optional formatted string. -/
structure GvizCell where
  v : Option String
  f : Option String
deriving DecidableEq

/-- Wrapped-variant row: an ordered list of possibly-null cells. -/
abbrev GvizRow := List (Option GvizCell)

/-- Wrapped-variant table: ordered column labels and rows. -/
structure GvizTable where
  cols : List String
  rows : List GvizRow
deriving DecidableEq

/-- The raw payload stored alongside a normalized row, from either path. -/
abbrev RawPayload := Sum RawRow GvizRow

inductive SyncError where
  | malformedFeed : SyncError
  | missingColumn : String → SyncError
deriving DecidableEq

/-- JS String.prototype.trim on our character model. -/
def jsTrim (s : String) : String :=
  String.mk (trimList s.toList)

def rawGet (row : RawRow) (label : String) : Option String :=
  List.lookup label row

/-- Array path field read: row[primary] ?? row[fallback] ?? "", trimmed. -/
def fieldOf (row : RawRow) (l1 l2 : String) : String :=
  jsTrim (((rawGet row l1).orElse (fun _ => rawGet row l2)).getD "")

/-- A normalized feed row ready for the reconciliation engine. -/
structure ParsedRow where
  client_name : String
  requirement_text : String
  price : Nat
  due_date : Option Nat
  status : String
  source : String
  sheet_row_id : String
  raw : RawPayload
deriving DecidableEq

/-- Source: the array-variant row mapper.  Returns none for blank rows
(service and description both empty), which the source filters out. -/
def normalizeRow (now : Nat) (row : RawRow) : Option ParsedRow :=
  let fullName0 := fieldOf row "What is your full name?" "Full Name"
  let fullName := if fullName0 = "" then "Client" else fullName0
  let service := fieldOf row "What type of service you want ?" "Service"
  let desc := fieldOf row "Could you briefly describe your project or needs?" "Description"
  let budgetRaw := fieldOf row "What is your estimated budget for this project?" "Budget"
  let timeline := fieldOf row "What is your preferred timeline for project completion?" "Timeline"
  let timestamp := fieldOf row "Timestamp" "timestamp"
  if service = "" ∧ desc = "" then none
  else some
    { client_name := fullName
      requirement_text := String.intercalate " — " (([service, desc]).filter (fun x => !(x == "")))
      price := parseBudgetToNumber (some budgetRaw)
      due_date := mapTimelineToDueDate now (some timeline)
      status := "available"
      source := "google_sheet"
      sheet_row_id := sheetRowId fullName service desc budgetRaw timeline timestamp
      raw := Sum.inl row }

def processArray (now : Nat) (rows : List RawRow) : List ParsedRow :=
  rows.filterMap (normalizeRow now)

/-! ## Wrapped-variant (GViz) feed parser -/

/-- Column label to index; a later column with the same label overwrites
an earlier one, as the source's forEach assignment does. -/
def colLastIndex (cols : List String) (label : String) : Option Nat :=
  cols.enum.foldl (fun acc p => if p.2 = label then some p.1 else acc) none

/-- Cell read: row.c[colIndex[label]]?.f ?? row.c[colIndex[label]]?.v ?? null. -/
def gvizGet (cols : List String) (row : GvizRow) (label : String) : Option String :=
  match colLastIndex cols label with
  | none => none
  | some i =>
    match row.get? i with
    | some (some cell) => (cell.f).orElse (fun _ => cell.v)
    | _ => none

def gfieldOf (cols : List String) (row : GvizRow) (label : String) : String :=
  jsTrim ((gvizGet cols row label).getD "")

/-- Source: the wrapped-variant row mapper (primary labels only). -/
def normalizeGvizRow (now : Nat) (cols : List String) (row : GvizRow) : Option ParsedRow :=
  let fullName0 := gfieldOf cols row "What is your full name?"
  let fullName := if fullName0 = "" then "Client" else fullName0
  let service := gfieldOf cols row "What type of service you want ?"
  let desc := gfieldOf cols row "Could you briefly describe your project or needs?"
  let budgetRaw := gfieldOf cols row "What is your estimated budget for this project?"
  let timeline := gfieldOf cols row "What is your preferred timeline for project completion?"
  let timestamp := gfieldOf cols row "Timestamp"
  if service = "" ∧ desc = "" then none
  else some
    { client_name := fullName
      requirement_text := String.intercalate " — " (([service, desc]).filter (fun x => !(x == "")))
      price := parseBudgetToNumber (some budgetRaw)
      due_date := mapTimelineToDueDate now (some timeline)
      status := "available"
      source := "google_sheet"
      sheet_row_id := sheetRowId fullName service desc budgetRaw timeline timestamp
      raw := Sum.inr row }

/-- The required header labels, in the order the source checks them. -/
def requiredColumns : List String :=
  ["What type of service you want ?",
   "Could you briefly describe your project or needs?",
   "What is your estimated budget for this project?",
   "What is your preferred timeline for project completion?",
   "What is your full name?",
   "Timestamp"]

/-- Last index of a character, as JS lastIndexOf. -/
def lastIndexOfChar (l : List Char) (ch : Char) : Option Nat :=
  l.enum.foldl (fun acc p => if p.2 = ch then some p.1 else acc) none

/-- JS String.prototype.substring: clamps and swaps its endpoints. -/
def substringJS (l : List Char) (a b : Nat) : List Char :=
  (l.take (Nat.max a b)).drop (Nat.min a b)

def setResponseMarker : List Char := "setResponse(".toList

/-- Source: parseGvizJsonp.  Locates the first envelope opening and the
last closing parenthesis, slices the interior, and decodes it; JSON
decoding itself is an abstract parameter.  Both failure modes (missing
delimiter, undecodable interior) are the spec's MalformedFeed error. -/
def parseGvizJsonp (decode : String → Option GvizTable) (input : String) :
    Except SyncError GvizTable :=
  match indexOfSub input.toList setResponseMarker, lastIndexOfChar input.toList ')' with
  | some start, some stop =>
    match decode (String.mk (substringJS input.toList (start + 12) stop)) with
    | some t => Except.ok t
    | none => Except.error SyncError.malformedFeed
  | _, _ => Except.error SyncError.malformedFeed

/-- Source: the wrapped-variant branch of the serve handler: the required
column check (throwing on the first missing label), then the row mapper. -/
def processGviz (now : Nat) (g : GvizTable) : Except SyncError (List ParsedRow) :=
  match requiredColumns.find? (fun l => (colLastIndex g.cols l).isNone) with
  | some lbl => Except.error (SyncError.missingColumn lbl)
  | none => Except.ok (g.rows.filterMap (normalizeGvizRow now g.cols))

/-! ## Persisted store and reconciliation engine -/

/-- A persisted order row.  oid is the database-generated primary key;
sheet_row_id is the nullable external dedup key.  Timestamps are abstract
Nat instants; the database-generated key of a freshly inserted row is not
modelled (inserts carry an empty oid). -/
structure Order where
  oid : String
  source : String
  sheet_row_id : Option String
  client_name : String
  requirement_text : String
  price : Nat
  due_date : Option Nat
  status : String
  taken_by : Option String
  taken_at : Option Nat
  completed_at : Option Nat
  deliverable_link : Option String
  actual_amount : Option Int
  editor_feedback : Option String
  raw : RawPayload
  updated_at : Nat
deriving DecidableEq

/-- The truthiness guard of the source: only non-null, non-empty
sheet_row_id values enter the existing-identity map. -/
def truthyId (o : Order) : Option String :=
  match o.sheet_row_id with
  | some s => if s = "" then none else some s
  | none => none

def existingIds (store : List Order) : List String :=
  store.filterMap truthyId

def newRecords (store : List Order) (toIns : List ParsedRow) : List ParsedRow :=
  toIns.filter (fun r => !((existingIds store).contains r.sheet_row_id))

def updateRecordsOf (store : List Order) (toIns : List ParsedRow) : List ParsedRow :=
  toIns.filter (fun r => (existingIds store).contains r.sheet_row_id)

/-- A freshly inserted order from a parsed row: workflow fields start
clear, status available. -/
def insertOrder (now : Nat) (r : ParsedRow) : Order :=
  { oid := ""
    source := r.source
    sheet_row_id := some r.sheet_row_id
    client_name := r.client_name
    requirement_text := r.requirement_text
    price := r.price
    due_date := r.due_date
    status := r.status
    taken_by := none
    taken_at := none
    completed_at := none
    deliverable_link := none
    actual_amount := none
    editor_feedback := none
    raw := r.raw
    updated_at := now }

/-- Source: the per-record update: descriptive fields only, filtered by
sheet_row_id; workflow fields are untouched. -/
def updOne (now : Nat) (o : Order) (r : ParsedRow) : Order :=
  if o.sheet_row_id = some r.sheet_row_id then
    { o with
      client_name := r.client_name
      requirement_text := r.requirement_text
      price := r.price
      due_date := r.due_date
      raw := r.raw
      source := "google_sheet"
      updated_at := now }
  else o

def applyUpdate (now : Nat) (st : List Order) (r : ParsedRow) : List Order :=
  st.map (fun o => updOne now o r)

/-- Does this persisted row's key appear in the deletion id list?  A null
key never matches the IN clause. -/
def idMatches (ids : List String) (o : Order) : Bool :=
  match o.sheet_row_id with
  | some s => ids.contains s
  | none => false

/-- One batched identity deletion: rows with a matching key are removed
and counted. -/
def deleteWhereIdIn (st : List Order) (ids : List String) : List Order × Nat :=
  (st.filter (fun o => !(idMatches ids o)), st.countP (fun o => idMatches ids o))

/-- Stale ids are split into batches of 1000 for the IN clause. -/
def chunksAux : Nat → List String → List (List String)
  | 0, _ => []
  | _ + 1, [] => []
  | fuel + 1, l => l.take 1000 :: chunksAux fuel (l.drop 1000)

def chunksOf1000 (l : List String) : List (List String) :=
  chunksAux l.length l

/-- Insertion-order key deduplication, as the Map in the source keys it. -/
def dedupAux : List String → List String → List String
  | [], _ => []
  | x :: xs, seen =>
    if seen.contains x then dedupAux xs seen else x :: dedupAux xs (x :: seen)

def dedupFirst (l : List String) : List String :=
  dedupAux l []

/-- Source: the purge block: (a) delete every row whose source is not the
feed, then (b) delete rows whose key is in the stale id list, in batches,
accumulating the deleted counts. -/
def purgeStep (store2 : List Order) (stale : List String) : List Order × Nat :=
  let afterA := store2.filter (fun o => o.source == "google_sheet")
  let countA := store2.countP (fun o => !(o.source == "google_sheet"))
  (chunksOf1000 stale).foldl
    (fun acc chunk =>
      let r := deleteWhereIdIn acc.1 chunk
      (r.1, acc.2 + r.2))
    (afterA, countA)

structure SyncResult where
  store : List Order
  inserted : Nat
  updated : Nat
  purged : Nat
  totalRows : Nat
deriving DecidableEq

/-- Source: the reconciliation body of the serve handler: partition parsed
rows by whether their identity is already persisted, insert the new ones,
update the existing ones, then optionally purge. -/
def reconcile (now : Nat) (store : List Order) (toIns : List ParsedRow)
    (purgeFlag : Bool) : SyncResult :=
  let newRecs := newRecords store toIns
  let updRecs := updateRecordsOf store toIns
  let store1 := store ++ newRecs.map (insertOrder now)
  let store2 := updRecs.foldl (applyUpdate now) store1
  if purgeFlag then
    let currentIds := toIns.map (fun r => r.sheet_row_id)
    let stale := (dedupFirst (existingIds store)).filter (fun i => !(currentIds.contains i))
    let pr := purgeStep store2 stale
    { store := pr.1, inserted := newRecs.length, updated := updRecs.length,
      purged := pr.2, totalRows := 0 }
  else
    { store := store2, inserted := newRecs.length, updated := updRecs.length,
      purged := 0, totalRows := 0 }

/-- Source: a full sync invocation on the array-variant path: the reported
totalRows is the raw feed length before blank-row filtering. -/
def syncRun (now : Nat) (store : List Order) (raws : List RawRow)
    (purgeFlag : Bool) : SyncResult :=
  let r := reconcile now store (processArray now raws) purgeFlag
  { r with totalRows := raws.length }

/-! ## Dashboard conditional updates (source: handleTakeOrder, handleCompleteOrder) -/

def takeMatch (orderId : String) (o : Order) : Bool :=
  o.oid == orderId && o.status == "available"

/-- Source: handleTakeOrder: one conditional update filtered on id and
status available; returns the new store and the number of affected rows.
The database trigger bumps updated_at on every update. -/
def takeOrder (now : Nat) (store : List Order) (orderId userId : String) :
    List Order × Nat :=
  (store.map (fun o =>
      if takeMatch orderId o then
        { o with status := "taken", taken_by := some userId,
                 taken_at := some now, updated_at := now }
      else o),
   store.countP (takeMatch orderId))

def completeMatch (orderId userId : String) (o : Order) : Bool :=
  o.oid == orderId && o.taken_by == some userId

/-- Source: handleCompleteOrder: one conditional update filtered on id and
taken_by — not on status.  The optional deliverable link, actual amount
and feedback arrive already normalized to null when blank. -/
def completeOrder (now : Nat) (store : List Order) (orderId userId : String)
    (deliverable : Option String) (actualAmount : Option Int)
    (feedback : Option String) : List Order × Nat :=
  (store.map (fun o =>
      if completeMatch orderId userId o then
        { o with status := "completed", completed_at := some now,
                 deliverable_link := deliverable, actual_amount := actualAmount,
                 editor_feedback := feedback, updated_at := now }
      else o),
   store.countP (completeMatch orderId userId))

/-! ## Generic helper lemmas -/

theorem foldl_max_le_init (l : List Nat) (a : Nat) : a ≤ l.foldl Nat.max a := by
  induction l generalizing a with
  | nil => exact Nat.le_refl a
  | cons x xs ih =>
    exact Nat.le_trans (Nat.le_max_left a x) (ih (Nat.max a x))

theorem mem_le_foldl_max (l : List Nat) : ∀ a v : Nat, v ∈ l → v ≤ l.foldl Nat.max a := by
  induction l with
  | nil => intro a v hv; cases hv
  | cons x xs ih =>
    intro a v hv
    rcases List.mem_cons.mp hv with h | h
    · subst h
      exact Nat.le_trans (Nat.le_max_right a v) (foldl_max_le_init xs (Nat.max a v))
    · exact ih (Nat.max a x) v h

theorem foldl_max_mem (l : List Nat) : ∀ a : Nat, l.foldl Nat.max a ∈ a :: l := by
  induction l with
  | nil => intro a; exact List.mem_singleton.mpr rfl
  | cons x xs ih =>
    intro a
    rw [List.foldl_cons]
    rcases List.mem_cons.mp (ih (Nat.max a x)) with h1 | h1
    · rw [h1]
      have hmx : Nat.max a x = max a x := rfl
      rw [hmx]
      rcases max_choice a x with hm | hm <;> rw [hm]
      · exact List.mem_cons_self a (x :: xs)
      · exact List.mem_cons_of_mem a (List.mem_cons_self x xs)
    · exact List.mem_cons_of_mem a (List.mem_cons_of_mem x h1)

/-! ## Claim theorems -/

/-- Claim C1: for every input string the budget parser scans left to right
for numbers with optional grouping or a decimal point, each with an
optional magnitude suffix, rounds each scaled value, and returns the
maximum of all matches, or 0 if there is no match and 0 for null or empty
input; in particular the four quoted examples evaluate as stated. -/
theorem budget_parser_spec :
    parseBudgetToNumber none = 0 ∧
    parseBudgetToNumber (some "") = 0 ∧
    (∀ s : String, s ≠ "" → budgetMatches (normalizeBudget s.toList) = [] →
      parseBudgetToNumber (some s) = 0) ∧
    (∀ s : String, s ≠ "" → budgetMatches (normalizeBudget s.toList) ≠ [] →
      parseBudgetToNumber (some s) ∈ budgetMatches (normalizeBudget s.toList) ∧
      ∀ v ∈ budgetMatches (normalizeBudget s.toList), v ≤ parseBudgetToNumber (some s)) ∧
    parseBudgetToNumber (some "₹15,000 - 20k") = 20000 ∧
    parseBudgetToNumber (some "2.5 cr") = 25000000 ∧
    parseBudgetToNumber (some "10L") = 1000000 ∧
    parseBudgetToNumber (some "no budget given") = 0 := by
  refine ⟨rfl, rfl, ?_, ?_, by decide, by decide, by decide, by decide⟩
  · intro s hs h
    simp only [parseBudgetToNumber]
    rw [if_neg hs, h]
  · intro s hs h
    cases heq : budgetMatches (normalizeBudget s.toList) with
    | nil => exact absurd heq h
    | cons v vs =>
      have hval : parseBudgetToNumber (some s) = vs.foldl Nat.max v := by
        simp only [parseBudgetToNumber]
        rw [if_neg hs, heq]
      constructor
      · rw [hval]
        exact foldl_max_mem vs v
      · intro w hw
        rw [hval]
        rcases List.mem_cons.mp hw with h1 | h1
        · subst h1
          exact foldl_max_le_init vs w
        · exact mem_le_foldl_max vs v w h1

theorem budget_parser_spec_witness :
    parseBudgetToNumber (some "abc") = 0 ∧
    parseBudgetToNumber (some "1k 500") ∈ budgetMatches (normalizeBudget ("1k 500").toList) :=
  ⟨budget_parser_spec.2.2.1 "abc" (by decide) (by decide),
   (budget_parser_spec.2.2.2.1 "1k 500" (by decide) (by decide)).1⟩

/-- Claim C2: the timeline classifier evaluates its rules top to bottom
with case-insensitive substring matching, first match wins: urgent/1-3
maps to now+3, then week/3-7 to now+7, then month/1-4 to now+28, anything
else (or null) to null; hence "1-4 weeks" maps to now+7. -/
theorem timeline_classifier_spec :
    (∀ now : Nat, mapTimelineToDueDate now none = none) ∧
    (∀ now : Nat, mapTimelineToDueDate now (some "") = none) ∧
    (∀ (now : Nat) (s : String), s ≠ "" →
      ((strContains (jsLower s) "urgent" || strContains (jsLower s) "1-3") = true →
        mapTimelineToDueDate now (some s) = some (now + 3)) ∧
      ((strContains (jsLower s) "urgent" || strContains (jsLower s) "1-3") = false →
        (strContains (jsLower s) "week" || strContains (jsLower s) "3-7") = true →
        mapTimelineToDueDate now (some s) = some (now + 7)) ∧
      ((strContains (jsLower s) "urgent" || strContains (jsLower s) "1-3") = false →
        (strContains (jsLower s) "week" || strContains (jsLower s) "3-7") = false →
        (strContains (jsLower s) "month" || strContains (jsLower s) "1-4") = true →
        mapTimelineToDueDate now (some s) = some (now + 28)) ∧
      ((strContains (jsLower s) "urgent" || strContains (jsLower s) "1-3") = false →
        (strContains (jsLower s) "week" || strContains (jsLower s) "3-7") = false →
        (strContains (jsLower s) "month" || strContains (jsLower s) "1-4") = false →
        mapTimelineToDueDate now (some s) = none)) ∧
    (∀ now : Nat, mapTimelineToDueDate now (some "1-4 weeks") = some (now + 7)) := by
  refine ⟨fun now => rfl, fun now => by simp [mapTimelineToDueDate], ?_, ?_⟩
  · intro now s hs
    refine ⟨?_, ?_, ?_, ?_⟩
    · intro h1
      simp [mapTimelineToDueDate, hs, h1, addDays]
    · intro h1 h2
      simp [mapTimelineToDueDate, hs, h1, h2, addDays]
    · intro h1 h2 h3
      simp [mapTimelineToDueDate, hs, h1, h2, h3, addDays]
    · intro h1 h2 h3
      simp [mapTimelineToDueDate, hs, h1, h2, h3]
  · intro now
    have hs : ("1-4 weeks" : String) ≠ "" := by decide
    simp [mapTimelineToDueDate, hs, addDays, show strContains (jsLower "1-4 weeks") "urgent" = false by decide,
      show strContains (jsLower "1-4 weeks") "1-3" = false by decide,
      show strContains (jsLower "1-4 weeks") "week" = true by decide]

theorem timeline_classifier_spec_witness :
    mapTimelineToDueDate 0 (some "2 weeks") = some 7 :=
  ((timeline_classifier_spec.2.2.1 0 "2 weeks" (by decide)).2.1 (by decide) (by decide))

/-- Claim C3: the identity resolver returns the feed timestamp verbatim
whenever it is non-empty, and otherwise the base-36 encoding of the djb2
hash of the five fields joined by a separator; hence two rows with equal
fields and empty timestamp resolve to the same identity string. -/
theorem identity_resolver_spec :
    (∀ name service desc budget timeline ts : String, ts ≠ "" →
      sheetRowId name service desc budget timeline ts = ts) ∧
    (∀ name service desc budget timeline : String,
      sheetRowId name service desc budget timeline "" =
        toBase36 (djb2Hash (fingerprint name service desc budget timeline))) ∧
    (∀ n1 s1 d1 b1 t1 n2 s2 d2 b2 t2 : String,
      n1 = n2 → s1 = s2 → d1 = d2 → b1 = b2 → t1 = t2 →
      sheetRowId n1 s1 d1 b1 t1 "" = sheetRowId n2 s2 d2 b2 t2 "") := by
  refine ⟨?_, ?_, ?_⟩
  · intro name service desc budget timeline ts hts
    unfold sheetRowId
    rw [if_neg hts]
  · intro name service desc budget timeline
    unfold sheetRowId
    rw [if_pos rfl]
  · intro n1 s1 d1 b1 t1 n2 s2 d2 b2 t2 h1 h2 h3 h4 h5
    subst h1; subst h2; subst h3; subst h4; subst h5
    rfl

theorem identity_resolver_spec_witness :
    sheetRowId "x" "y" "z" "w" "v" "T1" = "T1" :=
  identity_resolver_spec.1 "x" "y" "z" "w" "v" "T1" (by decide)

/-! ## Engine helper lemmas -/

theorem contains_iff_mem_str (l : List String) (a : String) :
    l.contains a = true ↔ a ∈ l := by
  simp [List.contains, List.elem_iff]

/-- The workflow-owned fields of a persisted row, together with its keys. -/
def workflowView (o : Order) :
    String × Option String × String × Option String × Option Nat × Option Nat ×
      Option String × Option Int × Option String :=
  (o.oid, o.sheet_row_id, o.status, o.taken_by, o.taken_at, o.completed_at,
   o.deliverable_link, o.actual_amount, o.editor_feedback)

theorem updOne_workflow (now : Nat) (o : Order) (r : ParsedRow) :
    workflowView (updOne now o r) = workflowView o := by
  unfold updOne
  split <;> rfl

theorem updOne_sheet_row_id (now : Nat) (o : Order) (r : ParsedRow) :
    (updOne now o r).sheet_row_id = o.sheet_row_id := by
  unfold updOne
  split <;> rfl

theorem foldl_updOne_workflow (now : Nat) (rs : List ParsedRow) :
    ∀ o : Order, workflowView (rs.foldl (updOne now) o) = workflowView o := by
  induction rs with
  | nil => intro o; rfl
  | cons r rs ih =>
    intro o
    rw [List.foldl_cons, ih (updOne now o r), updOne_workflow]

theorem foldl_updOne_sheet_row_id (now : Nat) (rs : List ParsedRow) (o : Order) :
    (rs.foldl (updOne now) o).sheet_row_id = o.sheet_row_id := by
  have h := foldl_updOne_workflow now rs o
  simp only [workflowView, Prod.mk.injEq] at h
  exact h.2.1

theorem foldl_applyUpdate (now : Nat) (rs : List ParsedRow) :
    ∀ st : List Order, rs.foldl (applyUpdate now) st =
      st.map (fun o => rs.foldl (updOne now) o) := by
  induction rs with
  | nil => intro st; simp
  | cons r rs ih =>
    intro st
    rw [List.foldl_cons, ih (applyUpdate now st r)]
    have happ : applyUpdate now st r = st.map (fun o => updOne now o r) := rfl
    rw [happ, List.map_map]
    rfl

theorem truthyId_congr (o1 o2 : Order) (h : o1.sheet_row_id = o2.sheet_row_id) :
    truthyId o1 = truthyId o2 := by
  unfold truthyId
  rw [h]

theorem existingIds_append (a b : List Order) :
    existingIds (a ++ b) = existingIds a ++ existingIds b := by
  unfold existingIds
  exact List.filterMap_append a b truthyId

theorem existingIds_map_of_id_preserved (f : Order → Order) (st : List Order)
    (h : ∀ o, (f o).sheet_row_id = o.sheet_row_id) :
    existingIds (st.map f) = existingIds st := by
  unfold existingIds
  rw [List.filterMap_map]
  congr 1
  funext o
  exact truthyId_congr (f o) o (h o)

theorem new_upd_length (store : List Order) (t : List ParsedRow) :
    (newRecords store t).length + (updateRecordsOf store t).length = t.length := by
  induction t with
  | nil => rfl
  | cons r rs ih =>
    unfold newRecords updateRecordsOf at ih ⊢
    by_cases h : r.sheet_row_id ∈ existingIds store <;>
      simp [List.filter_cons, h] at ih ⊢ <;> omega

theorem mem_new_or_upd (store : List Order) (t : List ParsedRow) (r : ParsedRow)
    (h : r ∈ newRecords store t ∨ r ∈ updateRecordsOf store t) : r ∈ t := by
  rcases h with h | h
  · exact (List.mem_filter.mp h).1
  · exact (List.mem_filter.mp h).1

theorem mem_newRecords_not_existing (store : List Order) (t : List ParsedRow)
    (r : ParsedRow) (h : r ∈ newRecords store t) :
    r.sheet_row_id ∉ existingIds store := by
  have h2 := (List.mem_filter.mp h).2
  intro hmem
  have h3 := (contains_iff_mem_str (existingIds store) r.sheet_row_id).mpr hmem
  rw [h3] at h2
  exact Bool.false_ne_true h2

theorem mem_updateRecords_existing (store : List Order) (t : List ParsedRow)
    (r : ParsedRow) (h : r ∈ updateRecordsOf store t) :
    r.sheet_row_id ∈ existingIds store := by
  exact (contains_iff_mem_str (existingIds store) r.sheet_row_id).mp
    (List.mem_filter.mp h).2

theorem reconcile_store_false (now : Nat) (store : List Order) (t : List ParsedRow) :
    (reconcile now store t false).store =
      (store ++ (newRecords store t).map (insertOrder now)).map
        (fun o => (updateRecordsOf store t).foldl (updOne now) o) := by
  have h : (reconcile now store t false).store =
      (updateRecordsOf store t).foldl (applyUpdate now)
        (store ++ (newRecords store t).map (insertOrder now)) := rfl
  rw [h, foldl_applyUpdate]

theorem reconcile_counts (now : Nat) (store : List Order) (t : List ParsedRow)
    (purgeFlag : Bool) :
    (reconcile now store t purgeFlag).inserted = (newRecords store t).length ∧
    (reconcile now store t purgeFlag).updated = (updateRecordsOf store t).length := by
  cases purgeFlag <;> exact ⟨rfl, rfl⟩

/-- Claim C5: a sync update writes only the descriptive fields of a matched
row and leaves all workflow fields unchanged; every pre-existing persisted
row keeps its status, assignee, timestamps and deliverable through a
purge-free sync run. -/
theorem sync_preserves_workflow_fields :
    (∀ (now : Nat) (o : Order) (r : ParsedRow), o.sheet_row_id = some r.sheet_row_id →
      (updOne now o r).client_name = r.client_name ∧
      (updOne now o r).requirement_text = r.requirement_text ∧
      (updOne now o r).price = r.price ∧
      (updOne now o r).due_date = r.due_date ∧
      (updOne now o r).raw = r.raw ∧
      (updOne now o r).source = "google_sheet" ∧
      (updOne now o r).updated_at = now ∧
      (updOne now o r).status = o.status ∧
      (updOne now o r).taken_by = o.taken_by ∧
      (updOne now o r).taken_at = o.taken_at ∧
      (updOne now o r).completed_at = o.completed_at ∧
      (updOne now o r).deliverable_link = o.deliverable_link) ∧
    (∀ (now : Nat) (store : List Order) (toIns : List ParsedRow),
      ∀ o ∈ store, ∃ o2 ∈ (reconcile now store toIns false).store,
        o2.oid = o.oid ∧ o2.sheet_row_id = o.sheet_row_id ∧ o2.status = o.status ∧
        o2.taken_by = o.taken_by ∧ o2.taken_at = o.taken_at ∧
        o2.completed_at = o.completed_at ∧ o2.deliverable_link = o.deliverable_link ∧
        o2.actual_amount = o.actual_amount ∧ o2.editor_feedback = o.editor_feedback) := by
  constructor
  · intro now o r h
    unfold updOne
    rw [if_pos h]
    exact ⟨rfl, rfl, rfl, rfl, rfl, rfl, rfl, rfl, rfl, rfl, rfl, rfl⟩
  · intro now store toIns o ho
    refine ⟨(updateRecordsOf store toIns).foldl (updOne now) o, ?_, ?_⟩
    · rw [reconcile_store_false]
      exact List.mem_map_of_mem _ (List.mem_append_left _ ho)
    · have h := foldl_updOne_workflow now (updateRecordsOf store toIns) o
      simp only [workflowView, Prod.mk.injEq] at h
      exact ⟨h.1, h.2.1, h.2.2.1, h.2.2.2.1, h.2.2.2.2.1, h.2.2.2.2.2.1,
        h.2.2.2.2.2.2.1, h.2.2.2.2.2.2.2.1, h.2.2.2.2.2.2.2.2⟩

/-- A sample persisted order used to instantiate universally quantified
theorems at a concrete input. -/
def sampleOrder : Order :=
  { oid := "o1", source := "google_sheet", sheet_row_id := some "sid1",
    client_name := "A", requirement_text := "R", price := 5, due_date := none,
    status := "taken", taken_by := some "u1", taken_at := some 1,
    completed_at := none, deliverable_link := none, actual_amount := none,
    editor_feedback := none, raw := Sum.inl [], updated_at := 0 }

theorem sync_preserves_workflow_fields_witness :
    ∃ o2 ∈ (reconcile 0 [sampleOrder] [] false).store,
      o2.oid = sampleOrder.oid ∧ o2.sheet_row_id = sampleOrder.sheet_row_id ∧
      o2.status = sampleOrder.status ∧ o2.taken_by = sampleOrder.taken_by ∧
      o2.taken_at = sampleOrder.taken_at ∧ o2.completed_at = sampleOrder.completed_at ∧
      o2.deliverable_link = sampleOrder.deliverable_link ∧
      o2.actual_amount = sampleOrder.actual_amount ∧
      o2.editor_feedback = sampleOrder.editor_feedback :=
  sync_preserves_workflow_fields.2 0 [sampleOrder] [] sampleOrder
    (List.mem_singleton.mpr rfl)

/-- Claim C10: the reported totalRows equals the raw feed length before
blank-row filtering; inserted plus updated equals the number of surviving
normalized rows, hence is at most totalRows and can be strictly less; and
every inserted or updated record arises from a non-discarded raw row. -/
theorem total_rows_accounting :
    (∀ (now : Nat) (store : List Order) (raws : List RawRow) (purgeFlag : Bool),
      (syncRun now store raws purgeFlag).totalRows = raws.length ∧
      (syncRun now store raws purgeFlag).inserted +
        (syncRun now store raws purgeFlag).updated = (processArray now raws).length ∧
      (syncRun now store raws purgeFlag).inserted +
        (syncRun now store raws purgeFlag).updated ≤ raws.length) ∧
    (∀ (now : Nat) (store : List Order) (raws : List RawRow) (r : ParsedRow),
      r ∈ newRecords store (processArray now raws) ∨
        r ∈ updateRecordsOf store (processArray now raws) →
      ∃ raw ∈ raws, normalizeRow now raw = some r) ∧
    (syncRun 0 [] [[("What is your full name?", "X")]] false).totalRows = 1 ∧
    (syncRun 0 [] [[("What is your full name?", "X")]] false).inserted = 0 ∧
    (syncRun 0 [] [[("What is your full name?", "X")]] false).updated = 0 := by
  refine ⟨?_, ?_, by decide, by decide, by decide⟩
  · intro now store raws purgeFlag
    have hins : (syncRun now store raws purgeFlag).inserted =
        (reconcile now store (processArray now raws) purgeFlag).inserted := rfl
    have hupd : (syncRun now store raws purgeFlag).updated =
        (reconcile now store (processArray now raws) purgeFlag).updated := rfl
    have hc := reconcile_counts now store (processArray now raws) purgeFlag
    have hsum : (syncRun now store raws purgeFlag).inserted +
        (syncRun now store raws purgeFlag).updated = (processArray now raws).length := by
      rw [hins, hupd, hc.1, hc.2]
      exact new_upd_length store (processArray now raws)
    refine ⟨rfl, hsum, ?_⟩
    rw [hsum]
    exact List.length_filterMap_le (normalizeRow now) raws
  · intro now store raws r h
    have hmem := mem_new_or_upd store (processArray now raws) r h
    exact List.mem_filterMap.mp hmem

/-- A placeholder parsed row, only used to strip an Option at a concrete
input known to be some. -/
def fallbackParsed : ParsedRow :=
  { client_name := "", requirement_text := "", price := 0, due_date := none,
    status := "", source := "", sheet_row_id := "", raw := Sum.inl [] }

theorem total_rows_accounting_witness :
    (syncRun 3 [] [[("Service", "Vid")]] false).totalRows = 1 ∧
    ∃ raw ∈ [[("Service", "Vid")]],
      normalizeRow 3 raw =
        some ((normalizeRow 3 [("Service", "Vid")]).getD fallbackParsed) :=
  ⟨(total_rows_accounting.1 3 [] [[("Service", "Vid")]] false).1,
   total_rows_accounting.2.1 3 [] [[("Service", "Vid")]]
     ((normalizeRow 3 [("Service", "Vid")]).getD fallbackParsed)
     (Or.inl (by decide))⟩

/-- The raw feed row used to exhibit duplicate blank-timestamp rows. -/
def dupRaw : RawRow :=
  [("What type of service you want ?", "Video Editing"),
   ("Could you briefly describe your project or needs?", "Edit my vlog"),
   ("What is your estimated budget for this project?", "5k"),
   ("What is your preferred timeline for project completion?", "urgent"),
   ("What is your full name?", "Asha")]

/-- Claim C4 counterexample: two identical blank-timestamp feed rows in one
sync run against an empty store are BOTH inserted, leaving two persisted
orders with the shared resolved identity, not at most one. -/
theorem duplicate_rows_counterexample :
    (syncRun 0 [] [dupRaw, dupRaw] false).inserted = 2 ∧
    (syncRun 0 [] [dupRaw, dupRaw] false).store.countP
      (fun o => o.sheet_row_id ==
        some (sheetRowId "Asha" "Video Editing" "Edit my vlog" "5k" "urgent" "")) = 2 := by
  constructor <;> decide

/-- The six fields the normalizer extracts from an array-variant row. -/
def extractFields (row : RawRow) :
    String × String × String × String × String × String :=
  (fieldOf row "What is your full name?" "Full Name",
   fieldOf row "What type of service you want ?" "Service",
   fieldOf row "Could you briefly describe your project or needs?" "Description",
   fieldOf row "What is your estimated budget for this project?" "Budget",
   fieldOf row "What is your preferred timeline for project completion?" "Timeline",
   fieldOf row "Timestamp" "timestamp")

/-- Claim C4 amended: two blank-timestamp feed rows with identical extracted
fields resolve to the same identity, and when that identity is already
persisted a purge-free sync run adds no row carrying it (the collapse the
spec describes holds across runs); but within a single run against a store
lacking the identity both rows are inserted, so at most one persisted order
is not guaranteed (see the counterexample). -/
theorem duplicate_rows_collapse_amended :
    (∀ (now : Nat) (r1 r2 : RawRow) (p1 p2 : ParsedRow),
      normalizeRow now r1 = some p1 → normalizeRow now r2 = some p2 →
      extractFields r1 = extractFields r2 → p1.sheet_row_id = p2.sheet_row_id) ∧
    (∀ (now : Nat) (store : List Order) (raws : List RawRow) (idv : String),
      idv ∈ existingIds store →
      (syncRun now store raws false).store.countP
          (fun o => o.sheet_row_id == some idv) =
        store.countP (fun o => o.sheet_row_id == some idv)) := by
  constructor
  · intro now r1 r2 p1 p2 h1 h2 heq
    simp only [normalizeRow] at h1 h2
    split at h1
    · exact absurd h1 (by simp)
    · split at h2
      · exact absurd h2 (by simp)
      · rw [Option.some.injEq] at h1 h2
        subst h1
        subst h2
        simp only [extractFields, Prod.mk.injEq] at heq
        obtain ⟨e1, e2, e3, e4, e5, e6⟩ := heq
        dsimp only
        rw [e1, e2, e3, e4, e5, e6]
  · intro now store raws idv hmem
    have h0 : (syncRun now store raws false).store =
        (reconcile now store (processArray now raws) false).store := rfl
    rw [h0, reconcile_store_false, List.countP_map]
    have hfun : ((fun o : Order => o.sheet_row_id == some idv) ∘
        (fun o => (updateRecordsOf store (processArray now raws)).foldl (updOne now) o)) =
        (fun o : Order => o.sheet_row_id == some idv) := by
      funext o
      simp only [Function.comp]
      rw [foldl_updOne_sheet_row_id]
    rw [hfun, List.countP_append]
    have hzero : ((newRecords store (processArray now raws)).map (insertOrder now)).countP
        (fun o => o.sheet_row_id == some idv) = 0 := by
      rw [List.countP_eq_zero]
      intro o hmemo hbeq
      rcases List.mem_map.mp hmemo with ⟨r, hr, hor⟩
      have hsheet : o.sheet_row_id = some idv := by
        exact beq_iff_eq.mp hbeq
      have hins : (insertOrder now r).sheet_row_id = some r.sheet_row_id := rfl
      rw [← hor, hins, Option.some.injEq] at hsheet
      exact mem_newRecords_not_existing store _ r hr (hsheet ▸ hmem)
    rw [hzero]
    exact Nat.add_zero _

theorem duplicate_rows_collapse_amended_witness :
    (syncRun 0 [sampleOrder] [] false).store.countP
        (fun o => o.sheet_row_id == some "sid1") =
      [sampleOrder].countP (fun o => o.sheet_row_id == some "sid1") :=
  duplicate_rows_collapse_amended.2 0 [sampleOrder] [] "sid1" (by decide)

/-! ## Idempotence helper lemmas -/

theorem toBase36Aux_ne_nil (fuel n : Nat) : toBase36Aux (fuel + 1) n ≠ [] := by
  unfold toBase36Aux
  split
  · exact List.cons_ne_nil _ _
  · intro h
    exact absurd (List.append_eq_nil.mp h).2 (List.cons_ne_nil _ _)

theorem toBase36_ne_empty (n : Nat) : toBase36 n ≠ "" := by
  unfold toBase36
  intro h
  have hd : toBase36Aux (n + 1) n = [] := congrArg String.data h
  exact toBase36Aux_ne_nil n n hd

theorem sheetRowId_ne_empty (n s d b t ts : String) :
    sheetRowId n s d b t ts ≠ "" := by
  unfold sheetRowId
  split
  next h => exact toBase36_ne_empty _
  next h => exact h

theorem normalizeRow_props (now : Nat) (row : RawRow) (p : ParsedRow)
    (h : normalizeRow now row = some p) :
    p.sheet_row_id ≠ "" ∧ p.source = "google_sheet" ∧ p.status = "available" := by
  simp only [normalizeRow] at h
  split at h
  · exact absurd h (by simp)
  · rw [Option.some.injEq] at h
    subst h
    exact ⟨sheetRowId_ne_empty _ _ _ _ _ _, rfl, rfl⟩

theorem foldl_updOne_no_match (now : Nat) (rs : List ParsedRow) :
    ∀ o : Order, (∀ r ∈ rs, o.sheet_row_id ≠ some r.sheet_row_id) →
      rs.foldl (updOne now) o = o := by
  induction rs with
  | nil => intro o _; rfl
  | cons r rs ih =>
    intro o h
    rw [List.foldl_cons]
    have h1 : updOne now o r = o := by
      unfold updOne
      rw [if_neg (h r (List.mem_cons_self r rs))]
    rw [h1]
    exact ih o (fun q hq => h q (List.mem_cons_of_mem r hq))

theorem foldl_updOne_unique_match (now : Nat) (l1 l2 : List ParsedRow) (r : ParsedRow)
    (o : Order) (ho : o.sheet_row_id = some r.sheet_row_id)
    (h1 : ∀ q ∈ l1, q.sheet_row_id ≠ r.sheet_row_id)
    (h2 : ∀ q ∈ l2, q.sheet_row_id ≠ r.sheet_row_id) :
    (l1 ++ r :: l2).foldl (updOne now) o = updOne now o r := by
  rw [List.foldl_append]
  rw [foldl_updOne_no_match now l1 o
    (fun q hq => by
      rw [ho]
      intro hc
      exact h1 q hq (Option.some.inj hc).symm)]
  rw [List.foldl_cons]
  apply foldl_updOne_no_match
  intro q hq
  rw [updOne_sheet_row_id, ho]
  intro hc
  exact h2 q hq (Option.some.inj hc).symm

theorem updOne_idem (now : Nat) (o : Order) (r : ParsedRow) :
    updOne now (updOne now o r) r = updOne now o r := by
  by_cases h : o.sheet_row_id = some r.sheet_row_id <;> simp [updOne, h]

theorem updOne_insertOrder (now : Nat) (r : ParsedRow)
    (hsrc : r.source = "google_sheet") :
    updOne now (insertOrder now r) r = insertOrder now r := by
  simp [updOne, insertOrder, hsrc]

theorem exists_decomp_unique (t : List ParsedRow) (r : ParsedRow)
    (hpw : t.Pairwise (fun a b => a.sheet_row_id ≠ b.sheet_row_id)) (hr : r ∈ t) :
    ∃ l1 l2, t = l1 ++ r :: l2 ∧ (∀ q ∈ l1, q.sheet_row_id ≠ r.sheet_row_id) ∧
      (∀ q ∈ l2, q.sheet_row_id ≠ r.sheet_row_id) := by
  obtain ⟨l1, l2, rfl⟩ := List.append_of_mem hr
  refine ⟨l1, l2, rfl, ?_, ?_⟩
  · have h := (List.pairwise_append.mp hpw).2.2
    intro q hq
    exact h q hq r (List.mem_cons_self r l2)
  · have h := List.pairwise_cons.mp (List.pairwise_append.mp hpw).2.1
    intro q hq
    exact (h.1 q hq).symm

theorem truthyId_insertOrder (now : Nat) (r : ParsedRow) (h : r.sheet_row_id ≠ "") :
    truthyId (insertOrder now r) = some r.sheet_row_id := by
  simp [truthyId, insertOrder, h]

theorem existingIds_reconcile_false (now : Nat) (store : List Order) (t : List ParsedRow) :
    existingIds ((reconcile now store t false).store) =
      existingIds store ++ existingIds ((newRecords store t).map (insertOrder now)) := by
  rw [reconcile_store_false]
  rw [existingIds_map_of_id_preserved _ _
    (fun o => foldl_updOne_sheet_row_id now (updateRecordsOf store t) o)]
  exact existingIds_append _ _

theorem feed_ids_in_run1 (now : Nat) (store : List Order) (t : List ParsedRow)
    (hne : ∀ r ∈ t, r.sheet_row_id ≠ "") :
    ∀ r ∈ t, r.sheet_row_id ∈ existingIds ((reconcile now store t false).store) := by
  intro r hr
  rw [existingIds_reconcile_false, List.mem_append]
  by_cases hmem : r.sheet_row_id ∈ existingIds store
  · exact Or.inl hmem
  · right
    have hnew : r ∈ newRecords store t := by
      apply List.mem_filter.mpr
      refine ⟨hr, ?_⟩
      cases hc : (existingIds store).contains r.sheet_row_id
      · rfl
      · exact absurd ((contains_iff_mem_str _ _).mp hc) hmem
    unfold existingIds
    exact List.mem_filterMap.mpr
      ⟨insertOrder now r, List.mem_map_of_mem _ hnew, truthyId_insertOrder now r (hne r hr)⟩

/-- After a purge-free run, re-applying the whole feed's updates to any
persisted row is a no-op, provided the feed's identities are pairwise
distinct (and the feed rows are normalizer outputs: non-empty identity and
feed source). -/
theorem second_fold_fixpoint (now : Nat) (store : List Order) (t : List ParsedRow)
    (hpw : t.Pairwise (fun a b => a.sheet_row_id ≠ b.sheet_row_id))
    (hne : ∀ r ∈ t, r.sheet_row_id ≠ "")
    (hsrc : ∀ r ∈ t, r.source = "google_sheet") :
    ∀ o ∈ (reconcile now store t false).store, t.foldl (updOne now) o = o := by
  intro o ho
  rw [reconcile_store_false] at ho
  rcases List.mem_map.mp ho with ⟨o0, ho0, rfl⟩
  rcases List.mem_append.mp ho0 with h0 | h0
  · by_cases hmatch : ∃ r ∈ t, o0.sheet_row_id = some r.sheet_row_id
    · rcases hmatch with ⟨r, hrt, hid⟩
      have hrne : r.sheet_row_id ≠ "" := hne r hrt
      have hidmem : r.sheet_row_id ∈ existingIds store := by
        unfold existingIds
        refine List.mem_filterMap.mpr ⟨o0, h0, ?_⟩
        simp [truthyId, hid, hrne]
      have hrupd : r ∈ updateRecordsOf store t :=
        List.mem_filter.mpr ⟨hrt, (contains_iff_mem_str _ _).mpr hidmem⟩
      have hpw_upd : (updateRecordsOf store t).Pairwise
          (fun a b => a.sheet_row_id ≠ b.sheet_row_id) :=
        List.Pairwise.sublist (List.filter_sublist t) hpw
      obtain ⟨u1, u2, hu, hu1, hu2⟩ :=
        exists_decomp_unique (updateRecordsOf store t) r hpw_upd hrupd
      obtain ⟨f1, f2, hf, hf1, hf2⟩ := exists_decomp_unique t r hpw hrt
      have hchain : (updateRecordsOf store t).foldl (updOne now) o0 = updOne now o0 r := by
        rw [hu]
        exact foldl_updOne_unique_match now u1 u2 r o0 hid hu1 hu2
      rw [hchain, hf]
      have hid2 : (updOne now o0 r).sheet_row_id = some r.sheet_row_id := by
        rw [updOne_sheet_row_id]
        exact hid
      rw [foldl_updOne_unique_match now f1 f2 r (updOne now o0 r) hid2 hf1 hf2]
      exact updOne_idem now o0 r
    · push_neg at hmatch
      have hch : (updateRecordsOf store t).foldl (updOne now) o0 = o0 := by
        apply foldl_updOne_no_match
        intro q hq
        exact hmatch q (List.mem_filter.mp hq).1
      rw [hch]
      exact foldl_updOne_no_match now t o0 (fun q hq => hmatch q hq)
  · rcases List.mem_map.mp h0 with ⟨r0, hr0, rfl⟩
    have hr0t : r0 ∈ t := (List.mem_filter.mp hr0).1
    have hnot : r0.sheet_row_id ∉ existingIds store :=
      mem_newRecords_not_existing store t r0 hr0
    have hch : (updateRecordsOf store t).foldl (updOne now) (insertOrder now r0) =
        insertOrder now r0 := by
      apply foldl_updOne_no_match
      intro q hq hc
      have h3 : r0.sheet_row_id = q.sheet_row_id := Option.some.inj hc
      exact hnot (h3 ▸ mem_updateRecords_existing store t q hq)
    rw [hch]
    obtain ⟨f1, f2, hf, hf1, hf2⟩ := exists_decomp_unique t r0 hpw hr0t
    rw [hf]
    rw [foldl_updOne_unique_match now f1 f2 r0 (insertOrder now r0) rfl hf1 hf2]
    exact updOne_insertOrder now r0 (hsrc r0 hr0t)

/-- Claim C6: running the engine twice with an unchanged feed snapshot
yields zero inserts on the second run (the new partition is empty, every
parsed identity being already persisted); the second run's update set is
the whole snapshot, whose descriptive content is unchanged; and when the
snapshot's identities are pairwise distinct the second run leaves the
store exactly as the first run left it. -/
theorem sync_idempotent_second_run :
    ∀ (now : Nat) (store : List Order) (raws : List RawRow),
      newRecords (syncRun now store raws false).store (processArray now raws) = [] ∧
      (syncRun now (syncRun now store raws false).store raws false).inserted = 0 ∧
      updateRecordsOf (syncRun now store raws false).store (processArray now raws) =
        processArray now raws ∧
      ((processArray now raws).Pairwise (fun a b => a.sheet_row_id ≠ b.sheet_row_id) →
        (syncRun now (syncRun now store raws false).store raws false).store =
          (syncRun now store raws false).store) := by
  intro now store raws
  have hprops : ∀ r ∈ processArray now raws,
      r.sheet_row_id ≠ "" ∧ r.source = "google_sheet" := by
    intro r hr
    rcases List.mem_filterMap.mp hr with ⟨raw, _, hraw⟩
    have h := normalizeRow_props now raw r hraw
    exact ⟨h.1, h.2.1⟩
  have hne : ∀ r ∈ processArray now raws, r.sheet_row_id ≠ "" :=
    fun r hr => (hprops r hr).1
  have hsrc : ∀ r ∈ processArray now raws, r.source = "google_sheet" :=
    fun r hr => (hprops r hr).2
  have hin := feed_ids_in_run1 now store (processArray now raws) hne
  have hnewnil : newRecords (syncRun now store raws false).store (processArray now raws) = [] := by
    unfold newRecords
    rw [List.filter_eq_nil_iff]
    intro r hr hc
    have hctrue := (contains_iff_mem_str
      (existingIds ((syncRun now store raws false).store)) r.sheet_row_id).mpr (hin r hr)
    rw [hctrue] at hc
    simp at hc
  have hupdall : updateRecordsOf (syncRun now store raws false).store (processArray now raws) =
      processArray now raws := by
    unfold updateRecordsOf
    rw [List.filter_eq_self]
    intro r hr
    exact (contains_iff_mem_str _ _).mpr (hin r hr)
  refine ⟨hnewnil, ?_, hupdall, ?_⟩
  · have h1 : (syncRun now (syncRun now store raws false).store raws false).inserted =
        (newRecords (syncRun now store raws false).store (processArray now raws)).length :=
      (reconcile_counts now (syncRun now store raws false).store
        (processArray now raws) false).1
    rw [h1, hnewnil]
    rfl
  · intro hpw
    have hstore2 : (syncRun now (syncRun now store raws false).store raws false).store =
        ((syncRun now store raws false).store ++
          (newRecords (syncRun now store raws false).store
            (processArray now raws)).map (insertOrder now)).map
          (fun o => (updateRecordsOf (syncRun now store raws false).store
            (processArray now raws)).foldl (updOne now) o) :=
      reconcile_store_false now (syncRun now store raws false).store (processArray now raws)
    rw [hstore2, hnewnil, hupdall]
    simp only [List.map_nil, List.append_nil]
    have hfix2 : ∀ o ∈ (syncRun now store raws false).store,
        (processArray now raws).foldl (updOne now) o = o :=
      fun o ho => second_fold_fixpoint now store (processArray now raws) hpw hne hsrc o ho
    calc List.map (fun o => List.foldl (updOne now) o (processArray now raws))
          (syncRun now store raws false).store
        = List.map (fun o => o) (syncRun now store raws false).store :=
          List.map_congr_left hfix2
      _ = (syncRun now store raws false).store := List.map_id' _

/-! ## Purge helper lemmas -/

theorem idMatches_nil (o : Order) : idMatches [] o = false := by
  unfold idMatches
  split <;> rfl

theorem idMatches_append (a b : List String) (o : Order) :
    idMatches (a ++ b) o = (idMatches a o || idMatches b o) := by
  cases hs : o.sheet_row_id <;>
    simp [idMatches, hs, List.contains_eq_any_beq, List.any_append]

theorem countP_or_split (p q : Order → Bool) (st : List Order) :
    st.countP (fun o => p o || q o) =
      st.countP p + st.countP (fun o => !(p o) && q o) := by
  induction st with
  | nil => rfl
  | cons o os ih =>
    cases hp : p o <;> cases hq : q o <;>
      simp [List.countP_cons, hp, hq, ih] <;> omega

theorem purge_fold (chunks : List (List String)) :
    ∀ (st : List Order) (n : Nat),
      chunks.foldl
        (fun acc chunk =>
          let r := deleteWhereIdIn acc.1 chunk
          (r.1, acc.2 + r.2)) (st, n) =
      (st.filter (fun o => !(idMatches chunks.flatten o)),
       n + st.countP (fun o => idMatches chunks.flatten o)) := by
  induction chunks with
  | nil =>
    intro st n
    have h1 : st.filter (fun o => !(idMatches ([] : List String) o)) = st :=
      List.filter_eq_self.mpr (fun a _ => by
        show (!(idMatches ([] : List String) a)) = true
        rw [idMatches_nil]
        rfl)
    have h2 : st.countP (fun o => idMatches ([] : List String) o) = 0 :=
      List.countP_eq_zero.mpr (fun a _ => by
        show ¬ idMatches ([] : List String) a = true
        rw [idMatches_nil]
        exact Bool.false_ne_true)
    simp only [List.foldl_nil, List.flatten_nil]
    rw [h1, h2, Nat.add_zero]
  | cons c cs ih =>
    intro st n
    rw [List.foldl_cons]
    show cs.foldl _ ((deleteWhereIdIn st c).1, n + (deleteWhereIdIn st c).2) = _
    rw [ih]
    unfold deleteWhereIdIn
    dsimp only
    have hfst : (st.filter (fun o => !(idMatches c o))).filter
          (fun o => !(idMatches cs.flatten o)) =
        st.filter (fun o => !(idMatches (c :: cs).flatten o)) := by
      rw [List.filter_filter]
      apply List.filter_congr
      intro a _
      simp only [List.flatten_cons, idMatches_append, Bool.not_or]
      rw [Bool.and_comm]
    have hsnd : n + st.countP (fun o => idMatches c o) +
          (st.filter (fun o => !(idMatches c o))).countP
            (fun o => idMatches cs.flatten o) =
        n + st.countP (fun o => idMatches (c :: cs).flatten o) := by
      rw [List.countP_filter, Nat.add_assoc]
      congr 1
      have h1 : st.countP (fun o => idMatches (c :: cs).flatten o) =
          st.countP (fun o => idMatches c o || idMatches cs.flatten o) :=
        List.countP_congr (fun x _ => by
          simp only [List.flatten_cons, idMatches_append])
      rw [h1, countP_or_split]
      congr 1
      exact List.countP_congr (fun x _ => by
        simp only [Bool.and_comm])
    rw [hfst, hsnd]

theorem chunksAux_flatten (fuel : Nat) :
    ∀ l : List String, l.length ≤ fuel → (chunksAux fuel l).flatten = l := by
  induction fuel with
  | zero =>
    intro l hl
    have h : l = [] := List.eq_nil_of_length_eq_zero (Nat.le_zero.mp hl)
    subst h
    rfl
  | succ f ih =>
    intro l hl
    cases l with
    | nil => rfl
    | cons x xs =>
      show ((x :: xs).take 1000 :: chunksAux f ((x :: xs).drop 1000)).flatten = x :: xs
      rw [List.flatten_cons, ih ((x :: xs).drop 1000) ?hlen, List.take_append_drop]
      case hlen =>
        rw [List.length_drop]
        have hx : (x :: xs).length = xs.length + 1 := rfl
        rw [hx] at hl ⊢
        omega

theorem chunksOf1000_flatten (l : List String) : (chunksOf1000 l).flatten = l :=
  chunksAux_flatten l.length l (Nat.le_refl _)

theorem dedupAux_mem (l : List String) :
    ∀ (seen : List String) (x : String),
      x ∈ dedupAux l seen ↔ x ∈ l ∧ x ∉ seen := by
  induction l with
  | nil => intro seen x; simp [dedupAux]
  | cons y ys ih =>
    intro seen x
    unfold dedupAux
    by_cases hy : y ∈ seen
    · rw [if_pos ((contains_iff_mem_str seen y).mpr hy), ih seen x]
      constructor
      · exact fun h => ⟨List.mem_cons_of_mem y h.1, h.2⟩
      · rintro ⟨h1, h2⟩
        rcases List.mem_cons.mp h1 with h3 | h3
        · exact absurd (h3 ▸ hy) h2
        · exact ⟨h3, h2⟩
    · have hc : seen.contains y = false := by
        cases hcc : seen.contains y
        · rfl
        · exact absurd ((contains_iff_mem_str seen y).mp hcc) hy
      rw [if_neg (by rw [hc]; exact Bool.false_ne_true)]
      rw [List.mem_cons, ih (y :: seen) x]
      constructor
      · rintro (h | ⟨h1, h2⟩)
        · subst h
          exact ⟨List.mem_cons_self x ys, hy⟩
        · exact ⟨List.mem_cons_of_mem y h1,
            fun hs => h2 (List.mem_cons_of_mem y hs)⟩
      · rintro ⟨h1, h2⟩
        rcases List.mem_cons.mp h1 with h3 | h3
        · exact Or.inl h3
        · by_cases hxy : x = y
          · exact Or.inl hxy
          · exact Or.inr ⟨h3, fun hs => by
              rcases List.mem_cons.mp hs with h4 | h4
              · exact hxy h4
              · exact h2 h4⟩

theorem dedupFirst_mem (l : List String) (x : String) :
    x ∈ dedupFirst l ↔ x ∈ l := by
  unfold dedupFirst
  rw [dedupAux_mem]
  simp

theorem purgeStep_spec (store2 : List Order) (stale : List String) :
    (purgeStep store2 stale).1 =
      (store2.filter (fun o => o.source == "google_sheet")).filter
        (fun o => !(idMatches stale o)) ∧
    (purgeStep store2 stale).2 =
      store2.countP (fun o => !(o.source == "google_sheet")) +
        (store2.filter (fun o => o.source == "google_sheet")).countP
          (fun o => idMatches stale o) := by
  unfold purgeStep
  rw [purge_fold, chunksOf1000_flatten]
  exact ⟨rfl, rfl⟩

/-- The stale id list the purge block computes. -/
def staleOf (store : List Order) (t : List ParsedRow) : List String :=
  (dedupFirst (existingIds store)).filter
    (fun i => !((t.map (fun r => r.sheet_row_id)).contains i))

theorem reconcile_true_spec (now : Nat) (store : List Order) (t : List ParsedRow) :
    (reconcile now store t true).store =
      (purgeStep ((reconcile now store t false).store) (staleOf store t)).1 ∧
    (reconcile now store t true).purged =
      (purgeStep ((reconcile now store t false).store) (staleOf store t)).2 :=
  ⟨rfl, rfl⟩

theorem countP_not_add (p : Order → Bool) (l : List Order) :
    l.countP p + l.countP (fun o => !(p o)) = l.length := by
  induction l with
  | nil => rfl
  | cons o os ih =>
    cases hp : p o <;> simp [List.countP_cons, hp] <;> omega

/-- Claim C7 amended: with the purge flag set, the run deletes every
non-feed-sourced row and every feed-sourced row with a NON-EMPTY identity
absent from the current parse (rows whose identity is null or the empty
string are exempted by the source's truthiness guard); afterwards every
remaining row is feed-sourced and every remaining non-empty identity
appears in the parse, the purged count accounts exactly for the deleted
rows, and without the flag nothing is deleted. -/
theorem purge_semantics_amended :
    (∀ (now : Nat) (store : List Order) (raws : List RawRow),
      (∀ o ∈ (syncRun now store raws true).store, o.source = "google_sheet") ∧
      (∀ o ∈ (syncRun now store raws true).store, ∀ s, o.sheet_row_id = some s →
        s ≠ "" → s ∈ (processArray now raws).map (fun r => r.sheet_row_id)) ∧
      (syncRun now store raws true).purged + (syncRun now store raws true).store.length =
        (syncRun now store raws false).store.length) ∧
    (∀ (now : Nat) (store : List Order) (raws : List RawRow),
      (syncRun now store raws false).purged = 0 ∧
      (syncRun now store raws false).store.length =
        store.length + (syncRun now store raws false).inserted) := by
  constructor
  · intro now store raws
    have hs1 : (syncRun now store raws true).store =
        (((syncRun now store raws false).store).filter
            (fun o => o.source == "google_sheet")).filter
          (fun o => !(idMatches (staleOf store (processArray now raws)) o)) := by
      have h1 := (reconcile_true_spec now store (processArray now raws)).1
      have h2 := (purgeStep_spec ((reconcile now store (processArray now raws) false).store)
        (staleOf store (processArray now raws))).1
      exact h1.trans h2
    have hp1 : (syncRun now store raws true).purged =
        ((syncRun now store raws false).store).countP
            (fun o => !(o.source == "google_sheet")) +
          (((syncRun now store raws false).store).filter
              (fun o => o.source == "google_sheet")).countP
            (fun o => idMatches (staleOf store (processArray now raws)) o) := by
      have h1 := (reconcile_true_spec now store (processArray now raws)).2
      have h2 := (purgeStep_spec ((reconcile now store (processArray now raws) false).store)
        (staleOf store (processArray now raws))).2
      exact h1.trans h2
    refine ⟨?_, ?_, ?_⟩
    · intro o ho
      rw [hs1] at ho
      have h2 := (List.mem_filter.mp (List.mem_filter.mp ho).1).2
      exact eq_of_beq h2
    · intro o ho s hsid hne
      rw [hs1] at ho
      have hrest := List.mem_filter.mp ho
      have hmem0 := (List.mem_filter.mp hrest.1).1
      have hnostale := hrest.2
      by_contra hnotcur
      have hstale : s ∈ staleOf store (processArray now raws) := by
        unfold staleOf
        apply List.mem_filter.mpr
        constructor
        · rw [dedupFirst_mem]
          -- s is a truthy identity of some original store row
          have hmem0b : o ∈ (reconcile now store (processArray now raws) false).store := hmem0
          rw [reconcile_store_false] at hmem0b
          rcases List.mem_map.mp hmem0b with ⟨o0, ho0, heq⟩
          have hid0 : o0.sheet_row_id = some s := by
            rw [← foldl_updOne_sheet_row_id now
              (updateRecordsOf store (processArray now raws)) o0, heq, hsid]
          rcases List.mem_append.mp ho0 with h0 | h0
          · unfold existingIds
            refine List.mem_filterMap.mpr ⟨o0, h0, ?_⟩
            simp [truthyId, hid0, hne]
          · exfalso
            rcases List.mem_map.mp h0 with ⟨r, hr, hins⟩
            have hrid : r.sheet_row_id = s := by
              have : (insertOrder now r).sheet_row_id = some r.sheet_row_id := rfl
              rw [hins] at this
              exact Option.some.inj (this.symm.trans hid0)
            exact hnotcur (hrid ▸ List.mem_map_of_mem (fun r => r.sheet_row_id)
              ((List.mem_filter.mp hr).1))
        · cases hc : ((processArray now raws).map (fun r => r.sheet_row_id)).contains s
          · rfl
          · exact absurd ((contains_iff_mem_str _ _).mp hc) hnotcur
      have : idMatches (staleOf store (processArray now raws)) o = true := by
        unfold idMatches
        rw [hsid]
        exact (contains_iff_mem_str _ _).mpr hstale
      rw [this] at hnostale
      exact absurd hnostale (by simp)
    · rw [hp1, hs1]
      have e1 : (((syncRun now store raws false).store).filter
            (fun o => o.source == "google_sheet")).countP
          (fun o => !(idMatches (staleOf store (processArray now raws)) o)) =
          ((((syncRun now store raws false).store).filter
            (fun o => o.source == "google_sheet")).filter
          (fun o => !(idMatches (staleOf store (processArray now raws)) o))).length :=
        List.countP_eq_length_filter _ _
      have e2 : (((syncRun now store raws false).store).filter
            (fun o => o.source == "google_sheet")).length =
          ((syncRun now store raws false).store).countP
            (fun o => o.source == "google_sheet") :=
        (List.countP_eq_length_filter _ _).symm
      have e3 := countP_not_add (fun o => idMatches (staleOf store (processArray now raws)) o)
        (((syncRun now store raws false).store).filter (fun o => o.source == "google_sheet"))
      have e4 := countP_not_add (fun o => o.source == "google_sheet")
        ((syncRun now store raws false).store)
      omega
  · intro now store raws
    constructor
    · rfl
    · have h : (syncRun now store raws false).store =
          (store ++ (newRecords store (processArray now raws)).map
            (insertOrder now)).map
          (fun o => (updateRecordsOf store (processArray now raws)).foldl (updOne now) o) :=
        reconcile_store_false now store (processArray now raws)
      rw [h, List.length_map, List.length_append, List.length_map]
      rfl

/-- A feed-sourced persisted row whose external identity is the empty
string: the truthiness guard keeps it out of the stale-id reconciliation. -/
def blankIdOrder : Order :=
  { oid := "b1", source := "google_sheet", sheet_row_id := some "",
    client_name := "B", requirement_text := "R", price := 0, due_date := none,
    status := "available", taken_by := none, taken_at := none,
    completed_at := none, deliverable_link := none, actual_amount := none,
    editor_feedback := none, raw := Sum.inl [], updated_at := 0 }

/-- Claim C7 counterexample: a purge run against an empty feed leaves a
feed-sourced row in place although its identity (the empty string) is
absent from the parse result, because the truthiness guard never lists an
empty identity as stale. -/
theorem purge_counterexample :
    (syncRun 0 [blankIdOrder] [] true).store = [blankIdOrder] ∧
    blankIdOrder.source = "google_sheet" ∧
    blankIdOrder.sheet_row_id = some "" ∧
    processArray 0 [] = [] :=
  ⟨by decide, rfl, rfl, rfl⟩

/-- A persisted row whose identity and descriptive content already match
the parse of dupRaw, so a sync run leaves it unchanged. -/
def keptOrder : Order :=
  { oid := "k1", source := "google_sheet",
    sheet_row_id := some (sheetRowId "Asha" "Video Editing" "Edit my vlog" "5k" "urgent" ""),
    client_name := "Asha", requirement_text := "Video Editing — Edit my vlog",
    price := 5000, due_date := some 3, status := "available", taken_by := none,
    taken_at := none, completed_at := none, deliverable_link := none,
    actual_amount := none, editor_feedback := none, raw := Sum.inl dupRaw,
    updated_at := 0 }

theorem purge_semantics_amended_witness :
    keptOrder.source = "google_sheet" ∧
    sheetRowId "Asha" "Video Editing" "Edit my vlog" "5k" "urgent" "" ∈
      (processArray 0 [dupRaw]).map (fun r => r.sheet_row_id) :=
  ⟨(purge_semantics_amended.1 0 [keptOrder] [dupRaw]).1 keptOrder (by decide),
   (purge_semantics_amended.1 0 [keptOrder] [dupRaw]).2.1 keptOrder (by decide) _ rfl
     (by decide)⟩

/-- Claim C8: the wrapped-variant envelope parser fails with MalformedFeed
exactly when the opening delimiter or the last closing parenthesis is
absent or the sliced interior fails to decode; the required-column check
(MissingColumn) is enforced only on the wrapped path, while the array path
is total and falls back to defaults for missing fields. -/
theorem feed_parser_error_paths :
    (∀ (decode : String → Option GvizTable) (input : String) (start stop : Nat),
      indexOfSub input.toList setResponseMarker = some start →
      lastIndexOfChar input.toList ')' = some stop →
      parseGvizJsonp decode input =
        (match decode (String.mk (substringJS input.toList (start + 12) stop)) with
         | some t => Except.ok t
         | none => Except.error SyncError.malformedFeed)) ∧
    (∀ (decode : String → Option GvizTable) (input : String),
      indexOfSub input.toList setResponseMarker = none →
      parseGvizJsonp decode input = Except.error SyncError.malformedFeed) ∧
    (∀ (decode : String → Option GvizTable) (input : String),
      lastIndexOfChar input.toList ')' = none →
      parseGvizJsonp decode input = Except.error SyncError.malformedFeed) ∧
    (∀ (now : Nat) (g : GvizTable) (lbl : String),
      requiredColumns.find? (fun l => (colLastIndex g.cols l).isNone) = some lbl →
      processGviz now g = Except.error (SyncError.missingColumn lbl)) ∧
    (∀ (now : Nat) (g : GvizTable),
      (∀ l ∈ requiredColumns, (colLastIndex g.cols l).isSome) →
      processGviz now g = Except.ok (g.rows.filterMap (normalizeGvizRow now g.cols))) ∧
    (∀ (now : Nat) (rows : List RawRow),
      processArray now rows = rows.filterMap (normalizeRow now)) ∧
    (∀ (now : Nat) (row : RawRow) (p : ParsedRow),
      rawGet row "What is your full name?" = none → rawGet row "Full Name" = none →
      normalizeRow now row = some p → p.client_name = "Client") := by
  refine ⟨?_, ?_, ?_, ?_, ?_, fun now rows => rfl, ?_⟩
  · intro decode input start stop h1 h2
    unfold parseGvizJsonp
    rw [h1, h2]
  · intro decode input h1
    unfold parseGvizJsonp
    rw [h1]
  · intro decode input h2
    cases h1 : indexOfSub input.toList setResponseMarker <;>
      unfold parseGvizJsonp <;> rw [h1]
    rw [h2]
  · intro now g lbl hfind
    unfold processGviz
    rw [hfind]
  · intro now g hall
    unfold processGviz
    rw [List.find?_eq_none.mpr]
    intro l hl
    have hs := hall l hl
    intro hcontra
    rw [Option.isNone_iff_eq_none.mp hcontra] at hs
    exact absurd hs (by simp)
  · intro now row p h1 h2 hn
    simp only [normalizeRow, fieldOf, h1, h2] at hn
    split at hn
    · exact absurd hn (by simp)
    · rw [Option.some.injEq] at hn
      subst hn
      rfl

theorem feed_parser_error_paths_witness :
    processGviz 0 ⟨[], []⟩ =
      Except.error (SyncError.missingColumn "What type of service you want ?") ∧
    parseGvizJsonp (fun _ => none) "zzz" = Except.error SyncError.malformedFeed :=
  ⟨feed_parser_error_paths.2.2.2.1 0 ⟨[], []⟩ "What type of service you want ?"
     (by decide),
   feed_parser_error_paths.2.1 (fun _ => none) "zzz" (by decide)⟩

theorem takeMatch_iff (oid : String) (o : Order) :
    takeMatch oid o = true ↔ (o.oid = oid ∧ o.status = "available") := by
  simp [takeMatch]

theorem completeMatch_iff (oid uid : String) (o : Order) :
    completeMatch oid uid o = true ↔ (o.oid = oid ∧ o.taken_by = some uid) := by
  simp [completeMatch]

/-- The persisted row exhibiting that completion is not conditioned on
status: already completed, but still assigned to u1. -/
def completedOrder : Order :=
  { oid := "c1", source := "google_sheet", sheet_row_id := some "t1",
    client_name := "C", requirement_text := "R", price := 1, due_date := none,
    status := "completed", taken_by := some "u1", taken_at := some 1,
    completed_at := some 2, deliverable_link := some "d", actual_amount := none,
    editor_feedback := none, raw := Sum.inl [], updated_at := 0 }

/-- Claim C9 counterexample: a completion against a row whose status is
not "taken" still affects one row and rewrites it, because the source's
completion update filters on the assignee, not on the status pre-state. -/
theorem completion_ignores_status_counterexample :
    completedOrder.status ≠ "taken" ∧
    (completeOrder 9 [completedOrder] "c1" "u1" none none none).2 = 1 ∧
    (completeOrder 9 [completedOrder] "c1" "u1" none none none).1 ≠ [completedOrder] :=
  ⟨by decide, by decide, by decide⟩

/-- Claim C9 amended: the claim ("take order") is a single conditional
update succeeding only when the row is still available — a losing claimant
affects zero rows and the store is unchanged, and a second claim of the
same order always affects zero rows; the completion update is conditional
on the row being assigned to the caller (taken_by), not on its status:
it affects zero rows and leaves the store unchanged exactly when no row
with that id is assigned to the caller. -/
theorem conditional_update_semantics_amended :
    (∀ (now : Nat) (store : List Order) (oid uid : String),
      ((takeOrder now store oid uid).2 = 0 ↔
        ∀ o ∈ store, ¬(o.oid = oid ∧ o.status = "available")) ∧
      ((∀ o ∈ store, ¬(o.oid = oid ∧ o.status = "available")) →
        (takeOrder now store oid uid).1 = store) ∧
      (∀ o ∈ store, o.oid = oid → o.status = "available" →
        ∃ o2 ∈ (takeOrder now store oid uid).1,
          o2.oid = oid ∧ o2.status = "taken" ∧ o2.taken_by = some uid)) ∧
    (∀ (now now2 : Nat) (store : List Order) (oid uid uid2 : String),
      (takeOrder now2 (takeOrder now store oid uid).1 oid uid2).2 = 0) ∧
    (∀ (now : Nat) (store : List Order) (oid uid : String) (d : Option String)
        (a : Option Int) (f : Option String),
      ((completeOrder now store oid uid d a f).2 = 0 ↔
        ∀ o ∈ store, ¬(o.oid = oid ∧ o.taken_by = some uid)) ∧
      ((∀ o ∈ store, ¬(o.oid = oid ∧ o.taken_by = some uid)) →
        (completeOrder now store oid uid d a f).1 = store)) := by
  refine ⟨?_, ?_, ?_⟩
  · intro now store oid uid
    refine ⟨?_, ?_, ?_⟩
    · have h : (takeOrder now store oid uid).2 = store.countP (takeMatch oid) := rfl
      rw [h, List.countP_eq_zero]
      constructor
      · intro hz o ho hmatch
        exact hz o ho ((takeMatch_iff oid o).mpr hmatch)
      · intro hz o ho hmatch
        exact hz o ho ((takeMatch_iff oid o).mp hmatch)
    · intro hz
      have h : (takeOrder now store oid uid).1 =
          store.map (fun o =>
            if takeMatch oid o then
              { o with status := "taken", taken_by := some uid,
                       taken_at := some now, updated_at := now }
            else o) := rfl
      rw [h]
      rw [List.map_congr_left (g := fun o => o) (fun o ho => by
        rw [if_neg (fun hm => hz o ho ((takeMatch_iff oid o).mp hm))])]
      exact List.map_id' _
    · intro o ho h1 h2
      have hm : takeMatch oid o = true := (takeMatch_iff oid o).mpr ⟨h1, h2⟩
      refine ⟨{ o with status := "taken", taken_by := some uid,
                       taken_at := some now, updated_at := now }, ?_, h1, rfl, rfl⟩
      exact List.mem_map.mpr ⟨o, ho, by rw [if_pos hm]⟩
  · intro now now2 store oid uid uid2
    have h : (takeOrder now2 (takeOrder now store oid uid).1 oid uid2).2 =
        ((takeOrder now store oid uid).1).countP (takeMatch oid) := rfl
    rw [h, List.countP_eq_zero]
    intro o2 ho2 hmatch
    rcases List.mem_map.mp ho2 with ⟨o, ho, heq⟩
    have hfalse : (("taken" : String) == "available") = false := by decide
    by_cases hm : takeMatch oid o = true
    · rw [if_pos hm] at heq
      rw [← heq] at hmatch
      unfold takeMatch at hmatch
      rw [Bool.and_eq_true] at hmatch
      exact absurd hmatch.2 (by rw [hfalse]; exact Bool.false_ne_true)
    · rw [if_neg hm] at heq
      exact hm (heq ▸ hmatch)
  · intro now store oid uid d a f
    constructor
    · have h : (completeOrder now store oid uid d a f).2 =
        store.countP (completeMatch oid uid) := rfl
      rw [h, List.countP_eq_zero]
      constructor
      · intro hz o ho hmatch
        exact hz o ho ((completeMatch_iff oid uid o).mpr hmatch)
      · intro hz o ho hmatch
        exact hz o ho ((completeMatch_iff oid uid o).mp hmatch)
    · intro hz
      have h : (completeOrder now store oid uid d a f).1 =
          store.map (fun o =>
            if completeMatch oid uid o then
              { o with status := "completed", completed_at := some now,
                       deliverable_link := d, actual_amount := a,
                       editor_feedback := f, updated_at := now }
            else o) := rfl
      rw [h]
      rw [List.map_congr_left (g := fun o => o) (fun o ho => by
        rw [if_neg (fun hm => hz o ho ((completeMatch_iff oid uid o).mp hm))])]
      exact List.map_id' _

theorem conditional_update_semantics_amended_witness :
    (completeOrder 5 [blankIdOrder] "b1" "u9" none none none).1 = [blankIdOrder] ∧
    ∃ o2 ∈ (takeOrder 5 [blankIdOrder] "b1" "u9").1,
      o2.oid = "b1" ∧ o2.status = "taken" ∧ o2.taken_by = some "u9" :=
  ⟨(conditional_update_semantics_amended.2.2 5 [blankIdOrder] "b1" "u9"
      none none none).2 (by decide),
   (conditional_update_semantics_amended.1 5 [blankIdOrder] "b1" "u9").2.2
     blankIdOrder (List.mem_singleton.mpr rfl) rfl rfl⟩

theorem sync_idempotent_second_run_witness :
    (syncRun 0 (syncRun 0 [] [dupRaw] false).store [dupRaw] false).inserted = 0 ∧
    (syncRun 0 (syncRun 0 [] [dupRaw] false).store [dupRaw] false).store =
      (syncRun 0 [] [dupRaw] false).store :=
  ⟨(sync_idempotent_second_run 0 [] [dupRaw]).2.1,
   (sync_idempotent_second_run 0 [] [dupRaw]).2.2.2 (by decide)⟩
